import Mathlib

/-!
Verification of the in-memory page ledger (`PDFPageManager`) and the
merge/extract export pipeline of the pdf-manager repository.

The repository holds two variants of the same application:
`src/public/js/main.js` (referred to below as the naive variant: its export
handlers reload each source file once per chosen page and surface a generic
alert on failure) and `src/unnamed/part_000` (the optimized variant: its
export handlers pre-load each distinct source file once into a per-call
cache and wrap per-page failures with the processing index).

External library capabilities (pdf-lib, pdf.js, JSZip) are modelled
abstractly: loading a source file and copying a page are recorded as events
(`PdfEvent`), a copied page is summarised by which source file it came
from, its 0-based page index there, and the absolute rotation set on the
copy (`CopiedPage`), and fallible library calls during the per-page
processing loop are driven by an explicit failure oracle
(`err : Nat -> Option String`, giving the thrown message at a processing
index, or `none` when the call succeeds).
-/

namespace PdfManager

/-- One ledger record, as built by `PDFPageManager.addPage` in the source.
The `canvas`, `pdfPage` and `arrayBuffer` fields of the JS object are opaque
handles owned by the external rendering and decoding libraries and carry no
information observable by the ledger or the export pipeline (exports resolve
bytes through `originalFiles[fileIndex]`, not through the record), so they
are not modelled. -/
structure PageRecord where
  id : Nat
  originalPageNum : Nat
  rotation : Int
  selected : Bool
  fileName : String
  fileIndex : Nat
deriving DecidableEq, Repr

/-- Argument object passed to `addPage` (the `pageData` literal built in
`loadPDF`). The JS expression `pageData.rotation || 0` is the identity on
integer rotations (and yields 0 when the field is absent), so the field is
carried directly. -/
structure PageData where
  originalPageNum : Nat
  rotation : Int
  fileName : String
  fileIndex : Nat
deriving DecidableEq, Repr

/-- An uploaded source file, identified by its name; its bytes are opaque
and addressed positionally through `originalFiles`. -/
structure SourceFile where
  name : String
deriving DecidableEq, Repr

/-- The page ledger: `pages`, `nextId` and `originalFiles` of the JS class
`PDFPageManager`. -/
structure PDFPageManager where
  pages : List PageRecord
  nextId : Nat
  originalFiles : List SourceFile
deriving DecidableEq, Repr

/-- The freshly constructed manager (`new PDFPageManager()`). -/
def initManager : PDFPageManager :=
  { pages := [], nextId := 1, originalFiles := [] }

/-- `addPage(pageData)`: appends a record with id `nextId`, increments
`nextId`, returns the new record. -/
def addPage (m : PDFPageManager) (d : PageData) : PageRecord × PDFPageManager :=
  let page : PageRecord :=
    { id := m.nextId, originalPageNum := d.originalPageNum, rotation := d.rotation,
      selected := false, fileName := d.fileName, fileIndex := d.fileIndex }
  (page, { m with pages := m.pages ++ [page], nextId := m.nextId + 1 })

/-- `removePage(id)`: `this.pages = this.pages.filter(p => p.id !== id)`. -/
def removePage (m : PDFPageManager) (i : Nat) : PDFPageManager :=
  { m with pages := m.pages.filter (fun p => p.id != i) }

/-- `getPage(id)`: `this.pages.find(p => p.id === id)`. -/
def getPage (m : PDFPageManager) (i : Nat) : Option PageRecord :=
  m.pages.find? (fun p => p.id == i)

/-- Applies `f` to the first element satisfying `q`, leaving the rest
unchanged: the effect of JS `find` followed by an in-place mutation of the
found object. -/
def updateFirst (q : α → Bool) (f : α → α) : List α → List α
  | [] => []
  | a :: as => if q a then f a :: as else a :: updateFirst q f as

/-- `rotatePage(id, degrees)`: the found record gets
`rotation = (rotation + degrees) % 360`, with JS `%` being the truncated
remainder (`Int.tmod`). -/
def rotatePage (m : PDFPageManager) (i : Nat) (degrees : Int) : PDFPageManager :=
  { m with pages := (updateFirst (fun p => p.id == i)
      (fun p => { p with rotation := Int.tmod (p.rotation + degrees) 360 }) m.pages) }

/-- `toggleSelection(id)`: flips `selected` on the found record. -/
def toggleSelection (m : PDFPageManager) (i : Nat) : PDFPageManager :=
  { m with pages := (updateFirst (fun p => p.id == i)
      (fun p => { p with selected := !p.selected }) m.pages) }

/-- `selectAll(selected)`: sets `selected` on every record. -/
def selectAll (m : PDFPageManager) (b : Bool) : PDFPageManager :=
  { m with pages := m.pages.map (fun p => { p with selected := b }) }

/-- `getSelectedPages()`: records with `selected = true`, in sequence order. -/
def getSelectedPages (m : PDFPageManager) : List PageRecord :=
  m.pages.filter (fun p => p.selected)

/-- `getAllPages()`: the full sequence. -/
def getAllPages (m : PDFPageManager) : List PageRecord :=
  m.pages

/-- Index normalization of JS `Array.prototype.splice`: a negative start is
an offset from the end clamped at 0, a nonnegative start is clamped at the
length. -/
def jsSpliceStart (len : Nat) (i : Int) : Nat :=
  if i < 0 then ((len : Int) + i).toNat else min i.toNat len

/-- `reorderPages(oldIndex, newIndex)` on the pages array, modelled on JS
array cells (`Option PageRecord`, `none` being an undefined cell):
`const [movedPage] = this.pages.splice(oldIndex, 1);`
`this.pages.splice(newIndex, 0, movedPage);`
When the normalized `oldIndex` is past the end, the first splice removes
nothing and the destructured `movedPage` is undefined, which the second
splice then inserts. -/
def reorderCells (cells : List (Option PageRecord)) (oldIndex newIndex : Int) :
    List (Option PageRecord) :=
  let s := jsSpliceStart cells.length oldIndex
  let removed := (cells.drop s).take 1
  let rest := cells.take s ++ cells.drop (s + 1)
  let movedPage : Option PageRecord := removed.head?.join
  let t := jsSpliceStart rest.length newIndex
  rest.take t ++ movedPage :: rest.drop t

/-- Observable calls into the external pdf-lib capability during an export:
`load k` is `PDFDocument.load` on the bytes of `originalFiles[k]` (the decode
capability of the claims), `copy k j` is `copyPages` of 0-based page `j` out
of the document decoded from file `k`. -/
inductive PdfEvent where
  | load (fileIndex : Nat)
  | copy (fileIndex : Nat) (pageIndex : Nat)
deriving DecidableEq, Repr

/-- `true` exactly on `load` events. -/
def PdfEvent.isLoad : PdfEvent → Bool
  | .load _ => true
  | .copy _ _ => false

/-- Observable description of one page of an output document: which source
file it was copied from, the 0-based page index there
(`page.originalPageNum - 1`), and the absolute rotation set on the copy
(`none` when `page.rotation === 0` and `setRotation` is skipped, so the
source page keeps its own rotation metadata). -/
structure CopiedPage where
  fileIndex : Nat
  pageIndex : Nat
  rotationSet : Option Int
deriving DecidableEq, Repr

/-- The per-page copy procedure applied to one record (shared by merge and
every extract mode): copy page `originalPageNum - 1` from source
`fileIndex`, then `if (page.rotation !== 0) copiedPage.setRotation(...)`. -/
def copyRecord (p : PageRecord) : CopiedPage :=
  { fileIndex := p.fileIndex, pageIndex := p.originalPageNum - 1,
    rotationSet := if p.rotation ≠ 0 then some p.rotation else none }

/-- A deliverable handed to `downloadFile`: a single PDF (name plus ordered
copied pages) or a ZIP archive of named one-page PDFs. -/
inductive Payload where
  | pdf (name : String) (doc : List CopiedPage)
  | zip (name : String) (entries : List (String × List CopiedPage))
deriving DecidableEq, Repr

/-- Outcome of an export handler: a user-visible alert with no download, or
a delivered payload. -/
inductive ExportResult where
  | alertError (message : String)
  | download (payload : Payload)
deriving DecidableEq, Repr

/-- Full observable behaviour of one export invocation: the ordered trace of
external load/copy calls, and the outcome. -/
structure ExportRun where
  trace : List PdfEvent
  result : ExportResult
deriving DecidableEq, Repr

/-- Selection rule shared by all four handlers:
`selectedPages.length > 0 ? selectedPages : pageManager.getAllPages()`. -/
def pagesToProcess (m : PDFPageManager) : List PageRecord :=
  let selectedPages := getSelectedPages m
  if selectedPages.length > 0 then selectedPages else getAllPages m

/-- Membership in the whitespace class stripped by `String.prototype.trim`,
modelled over the common ASCII whitespace characters. -/
def isJsWhitespace (c : Char) : Bool :=
  c == ' ' || c == '\t' || c == '\n' || c == '\r'

/-- JS `value.trim()`: strips leading and trailing whitespace. -/
def jsTrim (s : String) : String :=
  ⟨((s.data.dropWhile isJsWhitespace).reverse.dropWhile isJsWhitespace).reverse⟩

/-- Filename defaulting `field.value.trim() || defaultName` (the empty
string is falsy in JS). -/
def orDefault (value dflt : String) : String :=
  let t := jsTrim value
  if t = "" then dflt else t

/-- Insertion-order traversal of `[...new Set(list)]`: keeps the first
occurrence of each element, tracking the elements already seen. -/
def jsSetDedupAux (seen : List Nat) : List Nat → List Nat
  | [] => []
  | a :: as =>
    if seen.contains a then jsSetDedupAux seen as
    else a :: jsSetDedupAux (seen ++ [a]) as

/-- Insertion-order deduplication, as produced by `[...new Set(list)]`. -/
def jsSetDedup (l : List Nat) : List Nat := jsSetDedupAux [] l

/-- JS `Array.prototype.findIndex`: index of the first match, `-1` when
there is none. -/
def jsFindIndex (q : PageRecord → Bool) (l : List PageRecord) : Int :=
  match l.findIdx? q with
  | some k => (k : Int)
  | none => -1

/-- Working position lookup used by per-page extract naming:
`pageManager.getAllPages().findIndex(p => p.id === page.id)`. -/
def jsFindIndexId (m : PDFPageManager) (p : PageRecord) : Int :=
  jsFindIndex (fun q => q.id == p.id) (getAllPages m)

/-- The failure oracle that makes every external per-page library call
succeed. -/
def allOk : Nat → Option String := fun _ => none

/-- Per-page loop of the naive merge handler (and of the naive
single-document extract): for each chosen record, in order, reload the
record's source file (`originalFile.arrayBuffer()` then
`PDFDocument.load`), copy the page, conditionally set rotation, append.
A failure at processing index `i` aborts the loop with the raw message
(main.js has no per-page try/catch). -/
def naiveMergeLoop (err : Nat → Option String) :
    Nat → List PageRecord → List PdfEvent × Except String (List CopiedPage)
  | _, [] => ([], Except.ok [])
  | i, p :: ps =>
    match err i with
    | some msg => ([PdfEvent.load p.fileIndex], Except.error msg)
    | none =>
      let rest := naiveMergeLoop err (i + 1) ps
      (PdfEvent.load p.fileIndex :: PdfEvent.copy p.fileIndex (p.originalPageNum - 1) :: rest.1,
       rest.2.map (fun d => copyRecord p :: d))

/-- Per-page loop of the optimized merge handler and of the optimized
single-document extract: the source document is fetched from the per-call
cache (`loadedPdfs.get(page.fileIndex)`, modelled by membership in the list
of pre-loaded file indices), so no load event occurs; a failure is caught by
the per-page try/catch and rethrown as `Failed on page N: message`. A cache
miss would make `copyPages` throw on an undefined document, wrapped the same
way. -/
def optCopyLoop (cache : List Nat) (err : Nat → Option String) :
    Nat → List PageRecord → List PdfEvent × Except String (List CopiedPage)
  | _, [] => ([], Except.ok [])
  | i, p :: ps =>
    if cache.contains p.fileIndex then
      match err i with
      | some msg =>
        ([], Except.error ("Failed on page " ++ toString (i + 1) ++ ": " ++ msg))
      | none =>
        let rest := optCopyLoop cache err (i + 1) ps
        (PdfEvent.copy p.fileIndex (p.originalPageNum - 1) :: rest.1,
         rest.2.map (fun d => copyRecord p :: d))
    else
      ([], Except.error ("Failed on page " ++ toString (i + 1) ++
        ": Cannot read properties of undefined"))

/-- Pre-load phase of the optimized handlers:
`const uniqueFileIndices = [...new Set(pagesToMerge.map(p => p.fileIndex))]`,
each loaded exactly once into the per-call `loadedPdfs` map. -/
def loadPhase (chosen : List PageRecord) : List Nat :=
  jsSetDedup (chosen.map (fun p => p.fileIndex))

/-- `handleMerge` of the naive variant (src/public/js/main.js): selection
rule, empty-ledger alert, per-page reload loop, single `{filename}.pdf`
download; any thrown error reaches the single catch, which alerts a generic
message. -/
def handleMergeNaive (m : PDFPageManager) (mergeFilenameValue : String)
    (err : Nat → Option String) : ExportRun :=
  let pagesToMerge := pagesToProcess m
  if pagesToMerge.length = 0 then
    { trace := [], result := ExportResult.alertError "No pages to merge" }
  else
    let run := naiveMergeLoop err 0 pagesToMerge
    match run.2 with
    | Except.error _ =>
      { trace := run.1, result := ExportResult.alertError "Error merging PDF. Please try again." }
    | Except.ok doc =>
      let filename := orDefault mergeFilenameValue "merged-document"
      { trace := run.1, result := ExportResult.download (Payload.pdf (filename ++ ".pdf") doc) }

/-- `handleMerge` of the optimized variant (src/unnamed/part_000): selection
rule, empty-ledger alert, pre-load of each distinct source file, cached copy
loop, single `{filename}.pdf` download; a wrapped per-page error reaches the
catch, which alerts `Error merging PDF: ...`. -/
def handleMergeOpt (m : PDFPageManager) (mergeFilenameValue : String)
    (err : Nat → Option String) : ExportRun :=
  let pagesToMerge := pagesToProcess m
  if pagesToMerge.length = 0 then
    { trace := [], result := ExportResult.alertError "No pages to merge" }
  else
    let cache := loadPhase pagesToMerge
    let loadEvents := cache.map PdfEvent.load
    let run := optCopyLoop cache err 0 pagesToMerge
    match run.2 with
    | Except.error msg =>
      { trace := loadEvents ++ run.1,
        result := ExportResult.alertError
          ("Error merging PDF: " ++ msg ++ "\n\nCheck console for details.") }
    | Except.ok doc =>
      let filename := orDefault mergeFilenameValue "merged-document"
      { trace := loadEvents ++ run.1,
        result := ExportResult.download (Payload.pdf (filename ++ ".pdf") doc) }

/-- Per-page loop of the naive per-page-mode extract (ZIP branch of
src/public/js/main.js): for each chosen record, reload its source file,
copy into a fresh one-page document, serialize, and add it to the archive as
`{filename}_page-{workingPosition}.pdf`. -/
def naiveZipLoop (m : PDFPageManager) (filename : String) (err : Nat → Option String) :
    Nat → List PageRecord → List PdfEvent × Except String (List (String × List CopiedPage))
  | _, [] => ([], Except.ok [])
  | i, p :: ps =>
    match err i with
    | some msg => ([PdfEvent.load p.fileIndex], Except.error msg)
    | none =>
      let entryName := filename ++ "_page-" ++ toString (jsFindIndexId m p + 1) ++ ".pdf"
      let rest := naiveZipLoop m filename err (i + 1) ps
      (PdfEvent.load p.fileIndex :: PdfEvent.copy p.fileIndex (p.originalPageNum - 1) :: rest.1,
       rest.2.map (fun es => (entryName, [copyRecord p]) :: es))

/-- Per-page loop of the optimized per-page-mode extract (ZIP branch of
src/unnamed/part_000): source documents come from the per-call cache; the
per-page try/catch rethrows failures as `Failed on PDF N: message`. -/
def optZipLoop (m : PDFPageManager) (filename : String) (cache : List Nat)
    (err : Nat → Option String) :
    Nat → List PageRecord → List PdfEvent × Except String (List (String × List CopiedPage))
  | _, [] => ([], Except.ok [])
  | i, p :: ps =>
    if cache.contains p.fileIndex then
      match err i with
      | some msg =>
        ([], Except.error ("Failed on PDF " ++ toString (i + 1) ++ ": " ++ msg))
      | none =>
        let entryName := filename ++ "_page-" ++ toString (jsFindIndexId m p + 1) ++ ".pdf"
        let rest := optZipLoop m filename cache err (i + 1) ps
        (PdfEvent.copy p.fileIndex (p.originalPageNum - 1) :: rest.1,
         rest.2.map (fun es => (entryName, [copyRecord p]) :: es))
    else
      ([], Except.error ("Failed on PDF " ++ toString (i + 1) ++
        ": Cannot read properties of undefined"))

/-- `handleExtract` of the naive variant (src/public/js/main.js).
`mergeAsSingle` is the state of the `mergeSinglePdf` checkbox. The empty
match arm of the single-chosen-page branch is unreachable: the branch is
guarded by `pagesToExtract.length = 1`. -/
def handleExtractNaive (m : PDFPageManager) (extractFilenameValue : String)
    (mergeAsSingle : Bool) (err : Nat → Option String) : ExportRun :=
  let pagesToExtract := pagesToProcess m
  if pagesToExtract.length = 0 then
    { trace := [], result := ExportResult.alertError "No pages to extract" }
  else if mergeAsSingle then
    let run := naiveMergeLoop err 0 pagesToExtract
    match run.2 with
    | Except.error _ =>
      { trace := run.1,
        result := ExportResult.alertError "Error extracting PDF. Please try again." }
    | Except.ok doc =>
      let filename := orDefault extractFilenameValue "extracted-pages"
      { trace := run.1, result := ExportResult.download (Payload.pdf (filename ++ ".pdf") doc) }
  else if pagesToExtract.length = 1 then
    match pagesToExtract with
    | [] => { trace := [], result := ExportResult.alertError "No pages to extract" }
    | p :: _ =>
      match err 0 with
      | some _ =>
        { trace := [PdfEvent.load p.fileIndex],
          result := ExportResult.alertError "Error extracting PDF. Please try again." }
      | none =>
        let filename := orDefault extractFilenameValue "extracted-page"
        { trace := [PdfEvent.load p.fileIndex, PdfEvent.copy p.fileIndex (p.originalPageNum - 1)],
          result := ExportResult.download (Payload.pdf
            (filename ++ "_page-" ++ toString (jsFindIndexId m p + 1) ++ ".pdf")
            [copyRecord p]) }
  else
    let filename := orDefault extractFilenameValue "extracted-pages"
    let run := naiveZipLoop m filename err 0 pagesToExtract
    match run.2 with
    | Except.error _ =>
      { trace := run.1,
        result := ExportResult.alertError "Error extracting PDF. Please try again." }
    | Except.ok entries =>
      { trace := run.1,
        result := ExportResult.download (Payload.zip (filename ++ "_extract.zip") entries) }

/-- `handleExtract` of the optimized variant (src/unnamed/part_000): the
pre-load of all distinct source files happens before the mode branch, so
every mode shares the same per-call cache. The single-chosen-page branch has
no per-page try/catch, so a failure there surfaces unwrapped. -/
def handleExtractOpt (m : PDFPageManager) (extractFilenameValue : String)
    (mergeAsSingle : Bool) (err : Nat → Option String) : ExportRun :=
  let pagesToExtract := pagesToProcess m
  if pagesToExtract.length = 0 then
    { trace := [], result := ExportResult.alertError "No pages to extract" }
  else
    let cache := loadPhase pagesToExtract
    let loadEvents := cache.map PdfEvent.load
    if mergeAsSingle then
      let run := optCopyLoop cache err 0 pagesToExtract
      match run.2 with
      | Except.error msg =>
        { trace := loadEvents ++ run.1,
          result := ExportResult.alertError
            ("Error extracting PDF: " ++ msg ++ "\n\nCheck console for details.") }
      | Except.ok doc =>
        let filename := orDefault extractFilenameValue "extracted-pages"
        { trace := loadEvents ++ run.1,
          result := ExportResult.download (Payload.pdf (filename ++ ".pdf") doc) }
    else if pagesToExtract.length = 1 then
      match pagesToExtract with
      | [] => { trace := loadEvents, result := ExportResult.alertError "No pages to extract" }
      | p :: _ =>
        if cache.contains p.fileIndex then
          match err 0 with
          | some msg =>
            { trace := loadEvents,
              result := ExportResult.alertError
                ("Error extracting PDF: " ++ msg ++ "\n\nCheck console for details.") }
          | none =>
            let filename := orDefault extractFilenameValue "extracted-page"
            { trace := loadEvents ++ [PdfEvent.copy p.fileIndex (p.originalPageNum - 1)],
              result := ExportResult.download (Payload.pdf
                (filename ++ "_page-" ++ toString (jsFindIndexId m p + 1) ++ ".pdf")
                [copyRecord p]) }
        else
          { trace := loadEvents,
            result := ExportResult.alertError
              ("Error extracting PDF: Cannot read properties of undefined\n\nCheck console for details.") }
    else
      let filename := orDefault extractFilenameValue "extracted-pages"
      let run := optZipLoop m filename cache err 0 pagesToExtract
      match run.2 with
      | Except.error msg =>
        { trace := loadEvents ++ run.1,
          result := ExportResult.alertError
            ("Error extracting PDF: " ++ msg ++ "\n\nCheck console for details.") }
      | Except.ok entries =>
        { trace := loadEvents ++ run.1,
          result := ExportResult.download (Payload.zip (filename ++ "_extract.zip") entries) }

/-- State-threaded form of the naive merge handler: the handler body reads
the manager but contains no assignment to it, so the threaded state is the
incoming manager. -/
def handleMergeNaiveS (m : PDFPageManager) (v : String) (err : Nat → Option String) :
    PDFPageManager × ExportRun :=
  (m, handleMergeNaive m v err)

/-- State-threaded form of the optimized merge handler. -/
def handleMergeOptS (m : PDFPageManager) (v : String) (err : Nat → Option String) :
    PDFPageManager × ExportRun :=
  (m, handleMergeOpt m v err)

/-- State-threaded form of the naive extract handler. -/
def handleExtractNaiveS (m : PDFPageManager) (v : String) (b : Bool)
    (err : Nat → Option String) : PDFPageManager × ExportRun :=
  (m, handleExtractNaive m v b err)

/-- State-threaded form of the optimized extract handler. -/
def handleExtractOptS (m : PDFPageManager) (v : String) (b : Bool)
    (err : Nat → Option String) : PDFPageManager × ExportRun :=
  (m, handleExtractOpt m v b err)

/-- Ledger mutation events available from the UI (reordering is treated
separately through `reorderCells`, since its splice semantics can leave an
undefined cell in the array). -/
inductive LedgerOp where
  | add (d : PageData)
  | remove (i : Nat)
  | rotate (i : Nat) (degrees : Int)
  | toggle (i : Nat)
  | setAll (b : Bool)
deriving DecidableEq, Repr

/-- Applies one ledger operation. -/
def applyOp (m : PDFPageManager) : LedgerOp → PDFPageManager
  | LedgerOp.add d => (addPage m d).2
  | LedgerOp.remove i => removePage m i
  | LedgerOp.rotate i d => rotatePage m i d
  | LedgerOp.toggle i => toggleSelection m i
  | LedgerOp.setAll b => selectAll m b

/-- Applies a sequence of ledger operations, oldest first. -/
def applyOps (m : PDFPageManager) (ops : List LedgerOp) : PDFPageManager :=
  ops.foldl applyOp m

/-- The ids handed out by the `add` operations of a run, in order. -/
def assignedIds (m : PDFPageManager) : List LedgerOp → List Nat
  | [] => []
  | op :: ops =>
    match op with
    | LedgerOp.add _ => m.nextId :: assignedIds (applyOp m op) ops
    | _ => assignedIds (applyOp m op) ops

/-- Ledger well-formedness: ids are pairwise distinct and below the id
counter. -/
def Wf (m : PDFPageManager) : Prop :=
  (m.pages.map (fun p => p.id)).Nodup ∧ ∀ p ∈ m.pages, p.id < m.nextId

/-- Number of decode invocations in a trace. -/
def countLoads (t : List PdfEvent) : Nat :=
  (t.filter PdfEvent.isLoad).length

/-- Concrete fixture: first page of a one-file ledger. -/
def recA : PageRecord :=
  { id := 1, originalPageNum := 1, rotation := 0, selected := false,
    fileName := "a.pdf", fileIndex := 0 }

/-- Concrete fixture: second page of a one-file ledger. -/
def recB : PageRecord :=
  { id := 2, originalPageNum := 2, rotation := 0, selected := false,
    fileName := "a.pdf", fileIndex := 0 }

/-- Concrete fixture: a ledger holding two pages of one uploaded file,
nothing selected. -/
def mgrAB : PDFPageManager :=
  { pages := [recA, recB], nextId := 3, originalFiles := [{ name := "a.pdf" }] }

/-- Concrete fixture: page data for witnesses. -/
def pdA : PageData :=
  { originalPageNum := 1, rotation := 0, fileName := "a.pdf", fileIndex := 0 }

/-- Concrete fixture: a one-page ledger. -/
def mgrA : PDFPageManager :=
  { pages := [recA], nextId := 2, originalFiles := [{ name := "a.pdf" }] }

/-- Concrete fixture: `recB` with the selection flag set. -/
def recBsel : PageRecord := { recB with selected := true }

/-- Concrete fixture: a two-page ledger with only the second page selected. -/
def mgrABsel : PDFPageManager :=
  { pages := [recA, recBsel], nextId := 3, originalFiles := [{ name := "a.pdf" }] }

/-- Concrete fixture: a two-page ledger with both pages selected. -/
def mgrABall : PDFPageManager :=
  { pages := [{ recA with selected := true }, recBsel], nextId := 3,
    originalFiles := [{ name := "a.pdf" }] }

/-- Failure oracle that fails the first per-page library call with message
`boom` and succeeds afterwards. -/
def errBoom : Nat → Option String := fun i => if i = 0 then some "boom" else none

theorem find?_updateFirst (q : α → Bool) (f : α → α) (hf : ∀ a, q (f a) = q a)
    (l : List α) : (updateFirst q f l).find? q = (l.find? q).map f := by
  induction l with
  | nil => rfl
  | cons a as ih =>
    by_cases hqa : q a = true
    · simp [updateFirst, hqa, List.find?_cons, hf a]
    · have hqa' : q a = false := by simpa using hqa
      simp [updateFirst, hqa', List.find?_cons, ih]

theorem mem_updateFirst (q : α → Bool) (f : α → α) (l : List α) (p : α)
    (hp : p ∈ updateFirst q f l) : p ∈ l ∨ ∃ a, a ∈ l ∧ p = f a := by
  induction l with
  | nil => simp [updateFirst] at hp
  | cons a as ih =>
    by_cases hqa : q a = true
    · simp only [updateFirst, hqa, if_true, List.mem_cons] at hp
      rcases hp with h | h
      · exact Or.inr ⟨a, List.mem_cons_self a as, h⟩
      · exact Or.inl (List.mem_cons_of_mem a h)
    · simp only [updateFirst, hqa, if_false, Bool.false_eq_true, List.mem_cons] at hp
      rcases hp with h | h
      · exact Or.inl (h ▸ List.mem_cons_self a as)
      · rcases ih h with h2 | ⟨b, hb, hfb⟩
        · exact Or.inl (List.mem_cons_of_mem a h2)
        · exact Or.inr ⟨b, List.mem_cons_of_mem a hb, hfb⟩

theorem map_updateFirst (q : α → Bool) (f : α → α) (g : α → β)
    (hg : ∀ a, g (f a) = g a) (l : List α) :
    (updateFirst q f l).map g = l.map g := by
  induction l with
  | nil => rfl
  | cons a as ih =>
    by_cases hqa : q a = true
    · simp [updateFirst, hqa, hg a]
    · have hqa' : q a = false := by simpa using hqa
      simp [updateFirst, hqa', ih]

theorem getPage_rotatePage (m : PDFPageManager) (i : Nat) (d : Int) :
    getPage (rotatePage m i d) i =
      (getPage m i).map (fun p => { p with rotation := Int.tmod (p.rotation + d) 360 }) := by
  unfold getPage rotatePage
  exact find?_updateFirst (fun p => p.id == i)
    (fun p => { p with rotation := Int.tmod (p.rotation + d) 360 }) (fun a => rfl) m.pages

theorem jsSpliceStart_of_lt (len : Nat) (i : Int) (h0 : 0 ≤ i) (h1 : i < (len : Int)) :
    jsSpliceStart len i = i.toNat := by
  unfold jsSpliceStart
  rw [if_neg (not_lt.mpr h0)]
  omega

theorem reorderCells_perm (cells : List (Option PageRecord)) (i j : Int)
    (h0 : 0 ≤ i) (h1 : i < (cells.length : Int)) :
    (reorderCells cells i j).Perm cells := by
  have h2 : i.toNat < cells.length := by omega
  simp only [reorderCells, jsSpliceStart_of_lt cells.length i h0 h1]
  rw [List.drop_eq_getElem_cons h2]
  simp only [List.take_succ_cons, List.take_zero, List.head?_cons, Option.join]
  set c := cells[i.toNat] with hc
  set rest := cells.take i.toNat ++ cells.drop (i.toNat + 1) with hrest
  calc (rest.take (jsSpliceStart rest.length j) ++ c :: rest.drop (jsSpliceStart rest.length j)).Perm
        (c :: (rest.take (jsSpliceStart rest.length j) ++ rest.drop (jsSpliceStart rest.length j))) :=
        List.perm_middle
    _ = c :: rest := by rw [List.take_append_drop]
    _ = c :: (cells.take i.toNat ++ cells.drop (i.toNat + 1)) := rfl
    _ |>.Perm (cells.take i.toNat ++ c :: cells.drop (i.toNat + 1)) := List.perm_middle.symm
    _ = cells := by rw [← List.drop_eq_getElem_cons h2, List.take_append_drop]

theorem mem_jsSetDedupAux (x : Nat) : ∀ (l seen : List Nat),
    (x ∈ jsSetDedupAux seen l ↔ x ∈ l ∧ x ∉ seen) := by
  intro l
  induction l with
  | nil => intro seen; simp [jsSetDedupAux]
  | cons a as ih =>
    intro seen
    cases hsa : seen.contains a with
    | true =>
      have hamem : a ∈ seen := by simpa using hsa
      simp only [jsSetDedupAux, hsa, if_true, ih seen, List.mem_cons]
      constructor
      · rintro ⟨hx, hns⟩
        exact ⟨Or.inr hx, hns⟩
      · rintro ⟨hx | hx, hns⟩
        · exact absurd (hx ▸ hamem) hns
        · exact ⟨hx, hns⟩
    | false =>
      have hanm : a ∉ seen := by simpa using hsa
      simp only [jsSetDedupAux, hsa, Bool.false_eq_true, if_false, List.mem_cons,
        ih (seen ++ [a]), List.mem_append, List.mem_singleton]
      constructor
      · rintro (rfl | ⟨hx, hns⟩)
        · exact ⟨Or.inl rfl, hanm⟩
        · exact ⟨Or.inr hx, fun hc => hns (Or.inl hc)⟩
      · rintro ⟨rfl | hx, hns⟩
        · exact Or.inl rfl
        · by_cases hxa : x = a
          · exact Or.inl hxa
          · exact Or.inr ⟨hx, fun hc => hc.elim hns (fun h2 => hxa (by simpa using h2))⟩

theorem nodup_jsSetDedupAux : ∀ (l seen : List Nat), (jsSetDedupAux seen l).Nodup := by
  intro l
  induction l with
  | nil => intro seen; simp [jsSetDedupAux]
  | cons a as ih =>
    intro seen
    cases hsa : seen.contains a with
    | true => simpa only [jsSetDedupAux, hsa, if_true] using ih seen
    | false =>
      simp only [jsSetDedupAux, hsa, Bool.false_eq_true, if_false]
      refine List.nodup_cons.mpr ⟨?_, ih (seen ++ [a])⟩
      intro hmem
      have h1 := (mem_jsSetDedupAux a as (seen ++ [a])).mp hmem
      exact h1.2 (by simp)

theorem mem_jsSetDedup (l : List Nat) (x : Nat) : x ∈ jsSetDedup l ↔ x ∈ l := by
  rw [jsSetDedup, mem_jsSetDedupAux]
  simp

theorem nodup_jsSetDedup (l : List Nat) : (jsSetDedup l).Nodup :=
  nodup_jsSetDedupAux l []

theorem contains_loadPhase (chosen : List PageRecord) (p : PageRecord) (hp : p ∈ chosen) :
    (loadPhase chosen).contains p.fileIndex = true := by
  rw [List.contains_iff_exists_mem_beq]
  refine ⟨p.fileIndex, ?_, by simp⟩
  rw [loadPhase, mem_jsSetDedup]
  exact List.mem_map_of_mem (fun p => p.fileIndex) hp

theorem reorderCells_oob (cells : List (Option PageRecord)) (i j : Int)
    (h : (cells.length : Int) ≤ i) :
    reorderCells cells i j =
      cells.take (jsSpliceStart cells.length j) ++
        none :: cells.drop (jsSpliceStart cells.length j) := by
  have h0 : ¬ i < 0 := by omega
  have hs : jsSpliceStart cells.length i = cells.length := by
    unfold jsSpliceStart
    rw [if_neg h0]
    omega
  simp only [reorderCells, hs, List.drop_length, List.take_nil, List.head?_nil, Option.join,
    Option.none_bind, List.take_length]
  rw [List.drop_eq_nil_of_le (by omega), List.append_nil]

theorem foldl_reorderCells_perm (ops : List (Int × Int)) :
    ∀ cells : List (Option PageRecord),
      (∀ op ∈ ops, 0 ≤ op.1 ∧ op.1 < (cells.length : Int)) →
      (ops.foldl (fun l op => reorderCells l op.1 op.2) cells).Perm cells := by
  induction ops with
  | nil => exact fun cells _ => List.Perm.refl cells
  | cons op ops ih =>
    intro cells h
    have h1 := h op (List.mem_cons_self op ops)
    have hp : (reorderCells cells op.1 op.2).Perm cells :=
      reorderCells_perm cells op.1 op.2 h1.1 h1.2
    have hlen : ((reorderCells cells op.1 op.2).length : Int) = (cells.length : Int) := by
      exact_mod_cast congrArg Nat.cast hp.length_eq
    simp only [List.foldl_cons]
    refine (ih _ (fun o ho => ?_)).trans hp
    rw [hlen]
    exact h o (List.mem_cons_of_mem op ho)

theorem naiveMergeLoop_ok (l : List PageRecord) : ∀ i,
    naiveMergeLoop allOk i l =
      (l.flatMap (fun p =>
        [PdfEvent.load p.fileIndex, PdfEvent.copy p.fileIndex (p.originalPageNum - 1)]),
       Except.ok (l.map copyRecord)) := by
  induction l with
  | nil => intro i; rfl
  | cons p ps ih =>
    intro i
    simp [naiveMergeLoop, allOk, ih (i + 1), Except.map]

theorem optCopyLoop_ok (cache : List Nat) (l : List PageRecord)
    (hc : ∀ p ∈ l, cache.contains p.fileIndex = true) : ∀ i,
    optCopyLoop cache allOk i l =
      (l.map (fun p => PdfEvent.copy p.fileIndex (p.originalPageNum - 1)),
       Except.ok (l.map copyRecord)) := by
  induction l with
  | nil => intro i; rfl
  | cons p ps ih =>
    intro i
    have hpm : p.fileIndex ∈ cache := by simpa using hc p (List.mem_cons_self p ps)
    simp [optCopyLoop, allOk, hpm, Except.map,
      ih (fun q hq => hc q (List.mem_cons_of_mem p hq)) (i + 1)]

theorem optCopyLoop_noload (cache : List Nat) (err : Nat → Option String)
    (l : List PageRecord) : ∀ i, ∀ e ∈ (optCopyLoop cache err i l).1, e.isLoad = false := by
  induction l with
  | nil => intro i e he; simp [optCopyLoop] at he
  | cons p ps ih =>
    intro i e
    cases hcp : cache.contains p.fileIndex with
    | false => intro he; simp only [optCopyLoop, hcp] at he; simp at he
    | true =>
      cases herr : err i with
      | some msg => intro he; simp only [optCopyLoop, hcp, herr] at he; simp at he
      | none =>
        intro he
        simp only [optCopyLoop, hcp, herr, if_true, List.mem_cons] at he
        rcases he with he | he
        · simp [he, PdfEvent.isLoad]
        · exact ih (i + 1) e he

theorem optZipLoop_noload (m : PDFPageManager) (filename : String) (cache : List Nat)
    (err : Nat → Option String) (l : List PageRecord) :
    ∀ i, ∀ e ∈ (optZipLoop m filename cache err i l).1, e.isLoad = false := by
  induction l with
  | nil => intro i e he; simp [optZipLoop] at he
  | cons p ps ih =>
    intro i e
    cases hcp : cache.contains p.fileIndex with
    | false => intro he; simp only [optZipLoop, hcp] at he; simp at he
    | true =>
      cases herr : err i with
      | some msg => intro he; simp only [optZipLoop, hcp, herr] at he; simp at he
      | none =>
        intro he
        simp only [optZipLoop, hcp, herr, if_true, List.mem_cons] at he
        rcases he with he | he
        · simp [he, PdfEvent.isLoad]
        · exact ih (i + 1) e he

theorem naiveZipLoop_ok (m : PDFPageManager) (filename : String) (l : List PageRecord) : ∀ i,
    naiveZipLoop m filename allOk i l =
      (l.flatMap (fun p =>
        [PdfEvent.load p.fileIndex, PdfEvent.copy p.fileIndex (p.originalPageNum - 1)]),
       Except.ok (l.map (fun p =>
        (filename ++ "_page-" ++ toString (jsFindIndexId m p + 1) ++ ".pdf", [copyRecord p])))) := by
  induction l with
  | nil => intro i; rfl
  | cons p ps ih =>
    intro i
    simp [naiveZipLoop, allOk, ih (i + 1), Except.map]

theorem optZipLoop_ok (m : PDFPageManager) (filename : String) (cache : List Nat)
    (l : List PageRecord) (hc : ∀ p ∈ l, cache.contains p.fileIndex = true) : ∀ i,
    optZipLoop m filename cache allOk i l =
      (l.map (fun p => PdfEvent.copy p.fileIndex (p.originalPageNum - 1)),
       Except.ok (l.map (fun p =>
        (filename ++ "_page-" ++ toString (jsFindIndexId m p + 1) ++ ".pdf", [copyRecord p])))) := by
  induction l with
  | nil => intro i; rfl
  | cons p ps ih =>
    intro i
    have hpm : p.fileIndex ∈ cache := by simpa using hc p (List.mem_cons_self p ps)
    simp [optZipLoop, allOk, hpm, Except.map,
      ih (fun q hq => hc q (List.mem_cons_of_mem p hq)) (i + 1)]

theorem optCopyLoop_fail (cache : List Nat) (err : Nat → Option String) (msg : String)
    (l : List PageRecord) (hc : ∀ p ∈ l, cache.contains p.fileIndex = true) :
    ∀ i0 k, (∀ j, j < k → err (i0 + j) = none) → err (i0 + k) = some msg → k < l.length →
    (optCopyLoop cache err i0 l).2 =
      Except.error ("Failed on page " ++ toString (i0 + k + 1) ++ ": " ++ msg) := by
  induction l with
  | nil => intro i0 k _ _ h3; simp at h3
  | cons p ps ih =>
    intro i0 k h1 h2 h3
    have hpm : p.fileIndex ∈ cache := by simpa using hc p (List.mem_cons_self p ps)
    rcases k with _ | k
    · simp only [Nat.add_zero] at h2
      simp [optCopyLoop, hpm, h2]
    · have hz : err i0 = none := by simpa using h1 0 (Nat.succ_pos k)
      have step := ih (fun q hq => hc q (List.mem_cons_of_mem p hq)) (i0 + 1) k
        (fun j hj => by
          have := h1 (j + 1) (by omega)
          simpa [Nat.add_assoc, Nat.add_comm 1 j] using this)
        (by
          have harg : i0 + 1 + k = i0 + (k + 1) := by omega
          rw [harg]; exact h2)
        (by simpa using Nat.lt_of_succ_lt_succ h3)
      have harith : i0 + 1 + k + 1 = i0 + (k + 1) + 1 := by omega
      rw [harith] at step
      simp [optCopyLoop, hpm, hz, step, Except.map]

theorem optZipLoop_fail (m : PDFPageManager) (filename : String) (cache : List Nat)
    (err : Nat → Option String) (msg : String)
    (l : List PageRecord) (hc : ∀ p ∈ l, cache.contains p.fileIndex = true) :
    ∀ i0 k, (∀ j, j < k → err (i0 + j) = none) → err (i0 + k) = some msg → k < l.length →
    (optZipLoop m filename cache err i0 l).2 =
      Except.error ("Failed on PDF " ++ toString (i0 + k + 1) ++ ": " ++ msg) := by
  induction l with
  | nil => intro i0 k _ _ h3; simp at h3
  | cons p ps ih =>
    intro i0 k h1 h2 h3
    have hpm : p.fileIndex ∈ cache := by simpa using hc p (List.mem_cons_self p ps)
    rcases k with _ | k
    · simp only [Nat.add_zero] at h2
      simp [optZipLoop, hpm, h2]
    · have hz : err i0 = none := by simpa using h1 0 (Nat.succ_pos k)
      have step := ih (fun q hq => hc q (List.mem_cons_of_mem p hq)) (i0 + 1) k
        (fun j hj => by
          have := h1 (j + 1) (by omega)
          simpa [Nat.add_assoc, Nat.add_comm 1 j] using this)
        (by
          have harg : i0 + 1 + k = i0 + (k + 1) := by omega
          rw [harg]; exact h2)
        (by simpa using Nat.lt_of_succ_lt_succ h3)
      have harith : i0 + 1 + k + 1 = i0 + (k + 1) + 1 := by omega
      rw [harith] at step
      simp [optZipLoop, hpm, hz, step, Except.map]

theorem naiveMergeLoop_fail (err : Nat → Option String) (msg : String)
    (l : List PageRecord) :
    ∀ i0 k, (∀ j, j < k → err (i0 + j) = none) → err (i0 + k) = some msg → k < l.length →
    ∃ e, (naiveMergeLoop err i0 l).2 = Except.error e := by
  induction l with
  | nil => intro i0 k _ _ h3; simp at h3
  | cons p ps ih =>
    intro i0 k h1 h2 h3
    rcases k with _ | k
    · simp only [Nat.add_zero] at h2
      exact ⟨msg, by simp [naiveMergeLoop, h2]⟩
    · have hz : err i0 = none := by simpa using h1 0 (Nat.succ_pos k)
      obtain ⟨e, he⟩ := ih (i0 + 1) k
        (fun j hj => by
          have := h1 (j + 1) (by omega)
          simpa [Nat.add_assoc, Nat.add_comm 1 j] using this)
        (by
          have harg : i0 + 1 + k = i0 + (k + 1) := by omega
          rw [harg]; exact h2)
        (by simpa using Nat.lt_of_succ_lt_succ h3)
      exact ⟨e, by simp [naiveMergeLoop, hz, he, Except.map]⟩

theorem naiveZipLoop_fail (m : PDFPageManager) (filename : String)
    (err : Nat → Option String) (msg : String) (l : List PageRecord) :
    ∀ i0 k, (∀ j, j < k → err (i0 + j) = none) → err (i0 + k) = some msg → k < l.length →
    ∃ e, (naiveZipLoop m filename err i0 l).2 = Except.error e := by
  induction l with
  | nil => intro i0 k _ _ h3; simp at h3
  | cons p ps ih =>
    intro i0 k h1 h2 h3
    rcases k with _ | k
    · simp only [Nat.add_zero] at h2
      exact ⟨msg, by simp [naiveZipLoop, h2]⟩
    · have hz : err i0 = none := by simpa using h1 0 (Nat.succ_pos k)
      obtain ⟨e, he⟩ := ih (i0 + 1) k
        (fun j hj => by
          have := h1 (j + 1) (by omega)
          simpa [Nat.add_assoc, Nat.add_comm 1 j] using this)
        (by
          have harg : i0 + 1 + k = i0 + (k + 1) := by omega
          rw [harg]; exact h2)
        (by simpa using Nat.lt_of_succ_lt_succ h3)
      exact ⟨e, by simp [naiveZipLoop, hz, he, Except.map]⟩

theorem wf_initManager : Wf initManager := by
  constructor <;> simp [initManager, Wf]

theorem wf_applyOp (m : PDFPageManager) (op : LedgerOp) (h : Wf m) : Wf (applyOp m op) := by
  obtain ⟨hnd, hlt⟩ := h
  cases op with
  | add d =>
    constructor
    · simp only [applyOp, addPage, List.map_append, List.map_cons, List.map_nil]
      rw [List.nodup_append]
      refine ⟨hnd, List.nodup_singleton _, ?_⟩
      intro a ha hb
      simp only [List.mem_singleton] at hb
      rw [List.mem_map] at ha
      obtain ⟨p, hp, hpa⟩ := ha
      have := hlt p hp
      omega
    · intro p hp
      simp only [applyOp, addPage] at hp ⊢
      rcases List.mem_append.mp hp with h1 | h1
      · have := hlt p h1
        omega
      · simp only [List.mem_singleton] at h1
        subst h1
        exact Nat.lt_succ_self m.nextId
  | remove i =>
    constructor
    · exact (((List.filter_sublist m.pages).map (fun p => p.id)).nodup) hnd
    · intro p hp
      exact hlt p (List.mem_of_mem_filter hp)
  | rotate i d =>
    constructor
    · have heq := map_updateFirst (fun p : PageRecord => p.id == i)
        (fun p => { p with rotation := Int.tmod (p.rotation + d) 360 })
        (fun p => p.id) (fun a => rfl) m.pages
      simpa only [applyOp, rotatePage, heq] using hnd
    · intro p hp
      rcases mem_updateFirst _ _ _ p hp with h1 | ⟨a, ha, rfl⟩
      · exact hlt p h1
      · exact hlt a ha
  | toggle i =>
    constructor
    · have heq := map_updateFirst (fun p : PageRecord => p.id == i)
        (fun p => { p with selected := !p.selected })
        (fun p => p.id) (fun a => rfl) m.pages
      simpa only [applyOp, toggleSelection, heq] using hnd
    · intro p hp
      rcases mem_updateFirst _ _ _ p hp with h1 | ⟨a, ha, rfl⟩
      · exact hlt p h1
      · exact hlt a ha
  | setAll b =>
    constructor
    · have heq : ((m.pages.map (fun p => { p with selected := b })).map (fun p => p.id)) =
        m.pages.map (fun p => p.id) := by
        rw [List.map_map]
        rfl
      simpa only [applyOp, selectAll, heq] using hnd
    · intro p hp
      simp only [applyOp, selectAll, List.mem_map] at hp
      obtain ⟨a, ha, rfl⟩ := hp
      exact hlt a ha

theorem wf_applyOps (ops : List LedgerOp) : ∀ m, Wf m → Wf (applyOps m ops) := by
  induction ops with
  | nil => exact fun m h => h
  | cons op ops ih => exact fun m h => ih (applyOp m op) (wf_applyOp m op h)

theorem assignedIds_bounds (ops : List LedgerOp) : ∀ m : PDFPageManager,
    (assignedIds m ops).Chain' (· < ·) ∧ ∀ x ∈ assignedIds m ops, m.nextId ≤ x := by
  induction ops with
  | nil => exact fun m => ⟨List.chain'_nil, by simp [assignedIds]⟩
  | cons op ops ih =>
    intro m
    cases op with
    | add d =>
      obtain ⟨hch, hge⟩ := ih (applyOp m (LedgerOp.add d))
      constructor
      · refine List.chain'_cons'.mpr ⟨?_, hch⟩
        intro y hy
        have h1 : (applyOp m (LedgerOp.add d)).nextId ≤ y :=
          hge y (List.mem_of_mem_head? hy)
        have h2 : (applyOp m (LedgerOp.add d)).nextId = m.nextId + 1 := rfl
        omega
      · intro x hx
        rcases List.mem_cons.mp hx with h1 | h1
        · exact Nat.le_of_eq h1.symm
        · have h2 : (applyOp m (LedgerOp.add d)).nextId ≤ x := hge x h1
          have h3 : (applyOp m (LedgerOp.add d)).nextId = m.nextId + 1 := rfl
          omega
    | remove i => exact ⟨(ih (applyOp m (LedgerOp.remove i))).1,
        fun x hx => (ih (applyOp m (LedgerOp.remove i))).2 x hx⟩
    | rotate i d => exact ⟨(ih (applyOp m (LedgerOp.rotate i d))).1,
        fun x hx => (ih (applyOp m (LedgerOp.rotate i d))).2 x hx⟩
    | toggle i => exact ⟨(ih (applyOp m (LedgerOp.toggle i))).1,
        fun x hx => (ih (applyOp m (LedgerOp.toggle i))).2 x hx⟩
    | setAll b => exact ⟨(ih (applyOp m (LedgerOp.setAll b))).1,
        fun x hx => (ih (applyOp m (LedgerOp.setAll b))).2 x hx⟩

theorem getPage_removePage_self (m : PDFPageManager) (x : Nat) :
    getPage (removePage m x) x = none := by
  unfold getPage removePage
  rw [List.find?_eq_none]
  intro p hp
  have h1 := List.of_mem_filter hp
  simp only [bne_iff_ne, ne_eq] at h1
  simpa using h1

theorem pagesToProcess_of_selected (m : PDFPageManager) (h : getSelectedPages m ≠ []) :
    pagesToProcess m = getSelectedPages m := by
  unfold pagesToProcess
  rw [if_pos]
  exact List.length_pos.mpr h

theorem pagesToProcess_of_none_selected (m : PDFPageManager) (h : getSelectedPages m = []) :
    pagesToProcess m = getAllPages m := by
  unfold pagesToProcess
  rw [h]
  rfl

theorem pagesToProcess_sublist (m : PDFPageManager) :
    (pagesToProcess m).Sublist m.pages := by
  by_cases h : getSelectedPages m = []
  · rw [pagesToProcess_of_none_selected m h]
    exact List.Sublist.refl m.pages
  · rw [pagesToProcess_of_selected m h]
    exact List.filter_sublist m.pages

theorem mem_pagesToProcess (m : PDFPageManager) (p : PageRecord)
    (hp : p ∈ pagesToProcess m) : p ∈ m.pages :=
  (pagesToProcess_sublist m).mem hp

theorem copyRecord_set_sel (p : PageRecord) (b : Bool) :
    copyRecord { p with selected := b } = copyRecord p := rfl

theorem loadPhase_map_sel (l : List PageRecord) (b : Bool) :
    loadPhase (l.map (fun p => { p with selected := b })) = loadPhase l := by
  unfold loadPhase
  rw [List.map_map]
  rfl

theorem optCopyLoop_map_sel (cache : List Nat) (err : Nat → Option String)
    (l : List PageRecord) (b : Bool) : ∀ i,
    optCopyLoop cache err i (l.map (fun p => { p with selected := b })) =
      optCopyLoop cache err i l := by
  induction l with
  | nil => intro i; rfl
  | cons p ps ih =>
    intro i
    simp only [List.map_cons]
    rw [optCopyLoop, optCopyLoop, ih (i + 1)]
    rfl

theorem jsFindIndexId_map_sel (m m2 : PDFPageManager) (p : PageRecord) (b : Bool)
    (h : m2.pages = m.pages.map (fun p => { p with selected := b })) :
    jsFindIndexId m2 { p with selected := b } = jsFindIndexId m p := by
  unfold jsFindIndexId jsFindIndex getAllPages
  rw [h, List.findIdx?_map]
  rfl

theorem optZipLoop_map_sel (m m2 : PDFPageManager) (filename : String) (cache : List Nat)
    (err : Nat → Option String) (b : Bool)
    (h : m2.pages = m.pages.map (fun p => { p with selected := b }))
    (l : List PageRecord) : ∀ i,
    optZipLoop m2 filename cache err i (l.map (fun p => { p with selected := b })) =
      optZipLoop m filename cache err i l := by
  induction l with
  | nil => intro i; rfl
  | cons p ps ih =>
    intro i
    simp only [List.map_cons]
    rw [optZipLoop, optZipLoop, ih (i + 1), jsFindIndexId_map_sel m m2 p b h]
    rfl

theorem naiveMergeLoop_map_sel (err : Nat → Option String)
    (l : List PageRecord) (b : Bool) : ∀ i,
    naiveMergeLoop err i (l.map (fun p => { p with selected := b })) =
      naiveMergeLoop err i l := by
  induction l with
  | nil => intro i; rfl
  | cons p ps ih =>
    intro i
    simp only [List.map_cons]
    rw [naiveMergeLoop, naiveMergeLoop, ih (i + 1)]
    rfl

theorem naiveZipLoop_map_sel (m m2 : PDFPageManager) (filename : String)
    (err : Nat → Option String) (b : Bool)
    (h : m2.pages = m.pages.map (fun p => { p with selected := b }))
    (l : List PageRecord) : ∀ i,
    naiveZipLoop m2 filename err i (l.map (fun p => { p with selected := b })) =
      naiveZipLoop m filename err i l := by
  induction l with
  | nil => intro i; rfl
  | cons p ps ih =>
    intro i
    simp only [List.map_cons]
    rw [naiveZipLoop, naiveZipLoop, ih (i + 1), jsFindIndexId_map_sel m m2 p b h]
    rfl

theorem findIdx_of_nodup_ids (l : List PageRecord)
    (hN : (l.map (fun p => p.id)).Nodup) (p : PageRecord) (hp : p ∈ l) :
    ∃ k, k < l.length ∧ l[k]? = some p ∧
      l.findIdx? (fun q => q.id == p.id) = some k := by
  induction l with
  | nil => simp at hp
  | cons a as ih =>
    have hN2 : a.id ∉ as.map (fun p => p.id) ∧ (as.map (fun p => p.id)).Nodup := by
      rw [List.map_cons, List.nodup_cons] at hN
      exact hN
    rcases List.mem_cons.mp hp with rfl | hmem
    · refine ⟨0, by simp, by simp, ?_⟩
      rw [List.findIdx?_cons, if_pos (by simp)]
    · have hne : (a.id == p.id) = false := by
        rw [beq_eq_false_iff_ne]
        intro hid
        exact hN2.1 (hid ▸ List.mem_map_of_mem (fun p => p.id) hmem)
      obtain ⟨k, hk, hget, hfind⟩ := ih hN2.2 hmem
      refine ⟨k + 1, by simpa using hk, by simpa using hget, ?_⟩
      rw [List.findIdx?_cons, if_neg (by simp [hne]), List.findIdx?_succ, hfind]
      rfl

theorem tmod_four_rot (r : Int) (h : r = 0 ∨ r = 90 ∨ r = 180 ∨ r = 270) :
    Int.tmod (Int.tmod (Int.tmod (Int.tmod (r + 90) 360 + 90) 360 + 90) 360 + 90) 360 = r := by
  rcases h with rfl | rfl | rfl | rfl <;> decide

/-- C2, counterexample: the claim says `rotatePage(id, delta)` performs
modulo-360 addition with the result staying in {0, 90, 180, 270}; on the
code, `rotatePage(1, -90)` from rotation 0 stores the JS truncated remainder
-90, which is outside the set and differs from the mod-360 value 270. -/
theorem spec_C2_cex :
    (getPage (rotatePage mgrAB 1 (-90)) 1).map (fun p => p.rotation) = some (-90) ∧
    ((-90 : Int) ∉ ([0, 90, 180, 270] : List Int)) ∧
    (-90 : Int) ≠ ((0 : Int) + (-90)) % 360 := by decide

/-- C2, amended: `rotatePage(id, delta)` sets the found record to the JS
truncated remainder of (old + delta) by 360; this agrees with modulo-360
addition whenever old + delta is nonnegative, and four successive
`rotatePage(id, 90)` calls restore a rotation that lies in
{0, 90, 180, 270}; a delta making old + delta negative stores the negative
remainder instead. -/
theorem spec_C2_amended (m : PDFPageManager) (i : Nat) (d : Int) (p : PageRecord)
    (hp : getPage m i = some p) :
    getPage (rotatePage m i d) i =
      some { p with rotation := Int.tmod (p.rotation + d) 360 } ∧
    (0 ≤ p.rotation + d →
      getPage (rotatePage m i d) i = some { p with rotation := (p.rotation + d) % 360 }) ∧
    ((p.rotation = 0 ∨ p.rotation = 90 ∨ p.rotation = 180 ∨ p.rotation = 270) →
      getPage (rotatePage (rotatePage (rotatePage (rotatePage m i 90) i 90) i 90) i 90) i =
        some p) := by
  refine ⟨?_, ?_, ?_⟩
  · rw [getPage_rotatePage, hp, Option.map_some']
  · intro hnn
    rw [getPage_rotatePage, hp, Option.map_some', Int.tmod_eq_emod hnn (by norm_num)]
  · intro h4
    rw [getPage_rotatePage, getPage_rotatePage, getPage_rotatePage, getPage_rotatePage, hp]
    simp only [Option.map_some']
    show some { p with rotation := Int.tmod (Int.tmod (Int.tmod (Int.tmod
      (p.rotation + 90) 360 + 90) 360 + 90) 360 + 90) 360 } = some p
    rw [tmod_four_rot p.rotation h4]

/-- C2, witness for the amended claim at a concrete ledger. -/
theorem spec_C2_witness :
    getPage (rotatePage mgrAB 1 90) 1 =
      some { recA with rotation := Int.tmod (recA.rotation + 90) 360 } ∧
    getPage (rotatePage (rotatePage (rotatePage (rotatePage mgrAB 1 90) 1 90) 1 90) 1 90) 1 =
      some recA := by
  have h := spec_C2_amended mgrAB 1 90 recA (by decide)
  exact ⟨h.1, h.2.2 (by decide)⟩

/-- C3, counterexample: the claim says an out-of-range `fromIndex` is
validated and fails leaving the sequence unchanged; on the code,
`reorderPages(5, 0)` on a two-page array removes nothing, destructures an
undefined `movedPage`, and inserts it, changing the sequence. -/
theorem spec_C3_cex :
    reorderCells [some recA, some recB] 5 0 = [none, some recA, some recB] ∧
    reorderCells [some recA, some recB] 5 0 ≠ [some recA, some recB] := by decide

theorem jsSpliceStart_le (len : Nat) (i : Int) : jsSpliceStart len i ≤ len := by
  unfold jsSpliceStart
  split <;> omega

/-- C3, amended: `reorderPages` performs no validation and has no failure
path: for `fromIndex` at or past the length it removes nothing and inserts
an undefined cell at the clamped `toIndex`, growing the sequence by one;
for an in-range `fromIndex` (any `toIndex`, clamped by splice) it removes
and reinserts the cell, a permutation of the sequence. -/
theorem spec_C3_amended (cells : List (Option PageRecord)) (fromIdx toIdx : Int) :
    ((cells.length : Int) ≤ fromIdx →
      (reorderCells cells fromIdx toIdx).length = cells.length + 1 ∧
      none ∈ reorderCells cells fromIdx toIdx) ∧
    (0 ≤ fromIdx → fromIdx < (cells.length : Int) →
      (reorderCells cells fromIdx toIdx).Perm cells) := by
  constructor
  · intro h
    rw [reorderCells_oob cells fromIdx toIdx h]
    constructor
    · have ht := jsSpliceStart_le cells.length toIdx
      simp [List.length_append, List.length_take, List.length_drop]
      omega
    · simp
  · intro h0 h1
    exact reorderCells_perm cells fromIdx toIdx h0 h1

/-- C3, witness for the amended claim at concrete inputs. -/
theorem spec_C3_witness :
    ((reorderCells [some recA, some recB] 5 0).length = 2 + 1 ∧
      none ∈ reorderCells [some recA, some recB] 5 0) ∧
    (reorderCells [some recA, some recB] 0 1).Perm [some recA, some recB] := by
  refine ⟨?_, ?_⟩
  · exact (spec_C3_amended [some recA, some recB] 5 0).1 (by decide)
  · exact (spec_C3_amended [some recA, some recB] 0 1).2 (by decide) (by decide)

/-- C7: any sequence of in-range reorder operations permutes the page
sequence, leaving the length invariant and every record present with
unchanged multiplicity (in particular every original record id remains present
exactly once when ids are unique). -/
theorem spec_C7 (m : PDFPageManager) (ops : List (Int × Int))
    (h : ∀ op ∈ ops, 0 ≤ op.1 ∧ op.1 < (m.pages.length : Int) ∧
      0 ≤ op.2 ∧ op.2 < (m.pages.length : Int)) :
    (ops.foldl (fun l op => reorderCells l op.1 op.2) (m.pages.map some)).Perm
      (m.pages.map some) ∧
    (ops.foldl (fun l op => reorderCells l op.1 op.2) (m.pages.map some)).length =
      m.pages.length ∧
    ∀ r : PageRecord,
      ((ops.foldl (fun l op => reorderCells l op.1 op.2) (m.pages.map some)).filter
        (fun c => c == some r)).length =
        (m.pages.filter (fun q => q == r)).length := by
  have hp := foldl_reorderCells_perm ops (m.pages.map some)
    (fun op hop => ⟨(h op hop).1, by simpa using (h op hop).2.1⟩)
  refine ⟨hp, by simpa using hp.length_eq, ?_⟩
  intro r
  have h2 := (hp.filter (fun c => c == some r)).length_eq
  rw [List.filter_map] at h2
  simpa [List.length_map] using h2

/-- C7, witness at a concrete ledger and reorder sequence. -/
theorem spec_C7_witness :
    ([((0 : Int), (1 : Int)), ((1 : Int), (0 : Int))].foldl
      (fun l op => reorderCells l op.1 op.2) (mgrAB.pages.map some)).Perm
      (mgrAB.pages.map some) :=
  (spec_C7 mgrAB [((0 : Int), (1 : Int)), ((1 : Int), (0 : Int))] (by decide)).1

/-- C6: `addPage` assigns ids monotonically (the new record gets the current
counter, which is then incremented); along any operation sequence from a
fresh manager the assigned ids are strictly increasing (hence never reused,
even after deletions) and the ledger ids stay pairwise distinct; and
`removePage(x)` keeps every record with a different id, unchanged and in
order, after which `getPage(x)` is absent. -/
theorem spec_C6 (m : PDFPageManager) (ops : List LedgerOp) (d : PageData) (x : Nat) :
    ((addPage m d).1.id = m.nextId ∧ (addPage m d).2.nextId = m.nextId + 1) ∧
    (assignedIds initManager ops).Pairwise (· < ·) ∧
    ((applyOps initManager ops).pages.map (fun p => p.id)).Nodup ∧
    (∀ p ∈ m.pages, p.id ≠ x → p ∈ (removePage m x).pages) ∧
    (∀ p ∈ (removePage m x).pages, p ∈ m.pages ∧ p.id ≠ x) ∧
    ((removePage m x).pages).Sublist m.pages ∧
    getPage (removePage m x) x = none := by
  refine ⟨⟨rfl, rfl⟩, ?_, ?_, ?_, ?_, List.filter_sublist m.pages,
    getPage_removePage_self m x⟩
  · exact List.chain'_iff_pairwise.mp (assignedIds_bounds ops initManager).1
  · exact (wf_applyOps ops initManager wf_initManager).1
  · intro p hp hne
    exact List.mem_filter.mpr ⟨hp, by simpa using hne⟩
  · intro p hp
    exact ⟨List.mem_of_mem_filter hp, by simpa using List.of_mem_filter hp⟩

/-- C6, witness at a concrete ledger, operation sequence and removal. -/
theorem spec_C6_witness :
    recB ∈ (removePage mgrAB 1).pages ∧
    getPage (removePage mgrAB 1) 1 = none ∧
    (assignedIds initManager [LedgerOp.add pdA, LedgerOp.remove 1, LedgerOp.add pdA]).Pairwise
      (· < ·) := by
  have h := spec_C6 mgrAB [LedgerOp.add pdA, LedgerOp.remove 1, LedgerOp.add pdA] pdA 1
  exact ⟨h.2.2.2.1 recB (by decide) (by decide), h.2.2.2.2.2.2, h.2.1⟩

/-- C10: export handlers are read-only on the ledger: in the state-threaded
embedding of all four handlers (naive and optimized, merge and extract, for
any mode, filename and failure oracle) the outgoing manager is the incoming
manager — the handler bodies read `getSelectedPages`, `getAllPages` and
`originalFiles` but never assign to pages, ids, selection flags or the
source-file list. -/
theorem spec_C10 (m : PDFPageManager) (v : String) (b : Bool)
    (err : Nat → Option String) :
    (handleMergeNaiveS m v err).1 = m ∧ (handleMergeOptS m v err).1 = m ∧
    (handleExtractNaiveS m v b err).1 = m ∧ (handleExtractOptS m v b err).1 = m :=
  ⟨rfl, rfl, rfl, rfl⟩

theorem filter_nonload_flatMap (l : List PageRecord) :
    (l.flatMap (fun p =>
      [PdfEvent.load p.fileIndex, PdfEvent.copy p.fileIndex (p.originalPageNum - 1)])).filter
        (fun e => !e.isLoad) =
      l.map (fun p => PdfEvent.copy p.fileIndex (p.originalPageNum - 1)) := by
  induction l with
  | nil => rfl
  | cons p ps ih =>
    simp only [List.flatMap_cons, List.filter_append, ih, List.map_cons]
    rfl

theorem filter_nonload_loads (ks : List Nat) :
    (ks.map PdfEvent.load).filter (fun e => !e.isLoad) = [] := by
  induction ks with
  | nil => rfl
  | cons k ks ih =>
    simp only [List.map_cons, List.filter_cons]
    simp [PdfEvent.isLoad, ih]

theorem filter_nonload_copies (l : List PageRecord) :
    (l.map (fun p => PdfEvent.copy p.fileIndex (p.originalPageNum - 1))).filter
      (fun e => !e.isLoad) =
      l.map (fun p => PdfEvent.copy p.fileIndex (p.originalPageNum - 1)) := by
  induction l with
  | nil => rfl
  | cons p ps ih =>
    simp only [List.map_cons, List.filter_cons]
    simp [PdfEvent.isLoad, ih]

/-- C1, counterexample: the claim quantifies over every export of the
program, but the naive merge handler (src/public/js/main.js) invokes the
decode capability once per chosen page: on a ledger with two chosen pages
from one source file (K = 1) it loads twice, while the optimized handler
loads once. -/
theorem spec_C1_cex :
    countLoads (handleMergeNaive mgrAB "a" allOk).trace = 2 ∧
    (loadPhase (pagesToProcess mgrAB)).length = 1 ∧
    countLoads (handleMergeOpt mgrAB "a" allOk).trace = 1 := by decide

/-- C1, amended: in the optimized handlers (src/unnamed/part_000) every
export — merge and extract, any mode, any failure oracle — first emits
exactly one decode per distinct `fileIndex` of the chosen records (the
insertion-ordered deduplicated list, which is duplicate-free and covers
exactly the touched indices) and performs no further decode afterwards, the
handles being memoized in the per-call `loadedPdfs` map; the naive handlers
instead decode once per chosen page. -/
theorem spec_C1_amended (m : PDFPageManager) (v : String) (b : Bool)
    (err : Nat → Option String) :
    (∃ rest, (handleMergeOpt m v err).trace =
        (loadPhase (pagesToProcess m)).map PdfEvent.load ++ rest ∧
        ∀ e ∈ rest, e.isLoad = false) ∧
    (∃ rest, (handleExtractOpt m v b err).trace =
        (loadPhase (pagesToProcess m)).map PdfEvent.load ++ rest ∧
        ∀ e ∈ rest, e.isLoad = false) ∧
    (loadPhase (pagesToProcess m)).Nodup ∧
    (∀ k, k ∈ loadPhase (pagesToProcess m) ↔
      k ∈ (pagesToProcess m).map (fun p => p.fileIndex)) := by
  refine ⟨?_, ?_, nodup_jsSetDedup _, fun k => mem_jsSetDedup _ k⟩
  · by_cases hlen : (pagesToProcess m).length = 0
    · have hnil : pagesToProcess m = [] := List.length_eq_zero.mp hlen
      refine ⟨[], ?_, by simp⟩
      simp [handleMergeOpt, hnil, loadPhase, jsSetDedup, jsSetDedupAux]
    · refine ⟨(optCopyLoop (loadPhase (pagesToProcess m)) err 0 (pagesToProcess m)).1, ?_,
        fun e he => optCopyLoop_noload _ err _ 0 e he⟩
      simp only [handleMergeOpt, if_neg hlen]
      split <;> rfl
  · by_cases hlen : (pagesToProcess m).length = 0
    · have hnil : pagesToProcess m = [] := List.length_eq_zero.mp hlen
      refine ⟨[], ?_, by simp⟩
      simp [handleExtractOpt, hnil, loadPhase, jsSetDedup, jsSetDedupAux]
    · simp only [handleExtractOpt, if_neg hlen]
      by_cases hb : b
      · rw [if_pos hb]
        refine ⟨(optCopyLoop (loadPhase (pagesToProcess m)) err 0 (pagesToProcess m)).1, ?_,
          fun e he => optCopyLoop_noload _ err _ 0 e he⟩
        split <;> rfl
      · rw [if_neg hb]
        by_cases h1 : (pagesToProcess m).length = 1
        · rw [if_pos h1]
          obtain ⟨p, hp⟩ := List.length_eq_one.mp h1
          simp only [hp]
          cases hc : (loadPhase [p]).contains p.fileIndex with
          | false =>
            simp only [hc, Bool.false_eq_true, if_false]
            exact ⟨[], by simp, by simp⟩
          | true =>
            simp only [hc, if_true]
            cases herr : err 0 with
            | some msg =>
              simp only [herr]
              exact ⟨[], by simp, by simp⟩
            | none =>
              simp only [herr]
              exact ⟨[PdfEvent.copy p.fileIndex (p.originalPageNum - 1)], rfl,
                by simp [PdfEvent.isLoad]⟩
        · rw [if_neg h1]
          refine ⟨(optZipLoop m (orDefault v "extracted-pages")
              (loadPhase (pagesToProcess m)) err 0 (pagesToProcess m)).1, ?_,
            fun e he => optZipLoop_noload m _ _ err _ 0 e he⟩
          split <;> rfl

/-- C1, witness for the amended claim at a concrete ledger. -/
theorem spec_C1_witness :
    ∃ rest, (handleMergeOpt mgrAB "x" allOk).trace =
      (loadPhase (pagesToProcess mgrAB)).map PdfEvent.load ++ rest ∧
      ∀ e ∈ rest, e.isLoad = false :=
  (spec_C1_amended mgrAB "x" false allOk).1

/-- C9: on the same ledger and filename, with every external call
succeeding, the naive and the optimized merge handler deliver identical
results (same chosen pages, same copied 0-based source page indices in the
same order, same absolute rotations, same `{filename}.pdf` name), and their
traces contain the same copy events in the same order — they differ only in
the load events the cache removes. -/
theorem spec_C9 (m : PDFPageManager) (v : String) :
    (handleMergeNaive m v allOk).result = (handleMergeOpt m v allOk).result ∧
    (handleMergeNaive m v allOk).trace.filter (fun e => !e.isLoad) =
      (handleMergeOpt m v allOk).trace.filter (fun e => !e.isLoad) := by
  by_cases hlen : (pagesToProcess m).length = 0
  · constructor <;> simp [handleMergeNaive, handleMergeOpt, hlen]
  · have hcov : ∀ p ∈ pagesToProcess m,
        (loadPhase (pagesToProcess m)).contains p.fileIndex = true :=
      fun p hp => contains_loadPhase _ p hp
    have hn := naiveMergeLoop_ok (pagesToProcess m) 0
    have ho := optCopyLoop_ok (loadPhase (pagesToProcess m)) (pagesToProcess m) hcov 0
    constructor
    · simp only [handleMergeNaive, handleMergeOpt, if_neg hlen, hn, ho]
    · simp only [handleMergeNaive, handleMergeOpt, if_neg hlen, hn, ho]
      rw [List.filter_append, filter_nonload_flatMap, filter_nonload_loads,
        filter_nonload_copies, List.nil_append]

/-- C4, counterexample: the claim says the surfaced error is wrapped with
the failing processing index in every export mode; in the optimized
per-page extract with exactly one chosen page the copy failure surfaces
unwrapped (no `Failed on page 1`), and the naive merge handler surfaces an
index-free generic alert. -/
theorem spec_C4_cex :
    (handleExtractOpt mgrA "x" false errBoom).result =
      ExportResult.alertError "Error extracting PDF: boom\n\nCheck console for details." ∧
    (handleExtractOpt mgrA "x" false errBoom).result ≠
      ExportResult.alertError
        "Error extracting PDF: Failed on page 1: boom\n\nCheck console for details." ∧
    (handleMergeNaive mgrAB "x" errBoom).result =
      ExportResult.alertError "Error merging PDF. Please try again." := by decide

/-- C4, amended: a failing per-page library call aborts every export with an
alert and no delivered payload; the optimized merge and single-document
extract wrap the error as `Failed on page N`, the optimized ZIP extract
wraps it as `Failed on PDF N` (N the 1-based processing index within the
chosen subset), while the optimized single-chosen-page extract branch and
the naive handlers surface the error without the index. -/
theorem spec_C4_amended (m : PDFPageManager) (v : String) (err : Nat → Option String)
    (i : Nat) (msg : String)
    (h1 : ∀ j, j < i → err j = none) (h2 : err i = some msg)
    (h3 : i < (pagesToProcess m).length) :
    (handleMergeOpt m v err).result = ExportResult.alertError
      ("Error merging PDF: " ++ ("Failed on page " ++ toString (i + 1) ++ ": " ++ msg) ++
        "\n\nCheck console for details.") ∧
    (handleExtractOpt m v true err).result = ExportResult.alertError
      ("Error extracting PDF: " ++ ("Failed on page " ++ toString (i + 1) ++ ": " ++ msg) ++
        "\n\nCheck console for details.") ∧
    (1 < (pagesToProcess m).length →
      (handleExtractOpt m v false err).result = ExportResult.alertError
        ("Error extracting PDF: " ++ ("Failed on PDF " ++ toString (i + 1) ++ ": " ++ msg) ++
          "\n\nCheck console for details.")) ∧
    ((pagesToProcess m).length = 1 →
      (handleExtractOpt m v false err).result = ExportResult.alertError
        ("Error extracting PDF: " ++ msg ++ "\n\nCheck console for details.")) ∧
    (handleMergeNaive m v err).result =
      ExportResult.alertError "Error merging PDF. Please try again." ∧
    (handleExtractNaive m v true err).result =
      ExportResult.alertError "Error extracting PDF. Please try again." ∧
    ((pagesToProcess m).length = 1 →
      (handleExtractNaive m v false err).result =
        ExportResult.alertError "Error extracting PDF. Please try again.") ∧
    (1 < (pagesToProcess m).length →
      (handleExtractNaive m v false err).result =
        ExportResult.alertError "Error extracting PDF. Please try again.") ∧
    ∀ pl, (handleMergeOpt m v err).result ≠ ExportResult.download pl := by
  have hlen0 : ¬ (pagesToProcess m).length = 0 := by omega
  have hcov : ∀ p ∈ pagesToProcess m,
      (loadPhase (pagesToProcess m)).contains p.fileIndex = true :=
    fun p hp => contains_loadPhase _ p hp
  have hfail := optCopyLoop_fail (loadPhase (pagesToProcess m)) err msg
    (pagesToProcess m) hcov 0 i (fun j hj => by simpa using h1 j hj)
    (by simpa using h2) h3
  simp only [Nat.zero_add] at hfail
  have hm : (handleMergeOpt m v err).result = ExportResult.alertError
      ("Error merging PDF: " ++ ("Failed on page " ++ toString (i + 1) ++ ": " ++ msg) ++
        "\n\nCheck console for details.") := by
    simp only [handleMergeOpt, if_neg hlen0, hfail]
  refine ⟨hm, ?_, ?_, ?_, ?_, ?_, ?_, ?_, ?_⟩
  · simp only [handleExtractOpt, if_neg hlen0, if_true, hfail]
  · intro hlt
    have hne1 : ¬ (pagesToProcess m).length = 1 := by omega
    have hzfail := optZipLoop_fail m (orDefault v "extracted-pages")
      (loadPhase (pagesToProcess m)) err msg (pagesToProcess m) hcov 0 i
      (fun j hj => by simpa using h1 j hj) (by simpa using h2) h3
    simp only [Nat.zero_add] at hzfail
    simp only [handleExtractOpt, if_neg hlen0, Bool.false_eq_true, if_false, if_neg hne1,
      hzfail]
  · intro heq1
    have hi : i = 0 := by omega
    subst hi
    obtain ⟨p, hp⟩ := List.length_eq_one.mp heq1
    have hcp : (loadPhase [p]).contains p.fileIndex = true := by
      have := contains_loadPhase [p] p (by simp)
      exact this
    simp only [handleExtractOpt, if_neg hlen0, Bool.false_eq_true, if_false, if_pos heq1, hp,
      hcp, if_true, h2]
    simp
  · obtain ⟨e, he⟩ := naiveMergeLoop_fail err msg (pagesToProcess m) 0 i
      (fun j hj => by simpa using h1 j hj) (by simpa using h2) h3
    simp only [handleMergeNaive, if_neg hlen0, he]
  · obtain ⟨e, he⟩ := naiveMergeLoop_fail err msg (pagesToProcess m) 0 i
      (fun j hj => by simpa using h1 j hj) (by simpa using h2) h3
    simp only [handleExtractNaive, if_neg hlen0, if_true, he]
  · intro heq1
    have hi : i = 0 := by omega
    subst hi
    obtain ⟨p, hp⟩ := List.length_eq_one.mp heq1
    simp only [handleExtractNaive, if_neg hlen0, Bool.false_eq_true, if_false, if_pos heq1,
      hp, h2]
    simp
  · intro hlt
    have hne1 : ¬ (pagesToProcess m).length = 1 := by omega
    obtain ⟨e, he⟩ := naiveZipLoop_fail m (orDefault v "extracted-pages") err msg
      (pagesToProcess m) 0 i (fun j hj => by simpa using h1 j hj) (by simpa using h2) h3
    simp only [handleExtractNaive, if_neg hlen0, Bool.false_eq_true, if_false, if_neg hne1,
      he]
  · intro pl hcontra
    rw [hm] at hcontra
    exact ExportResult.noConfusion hcontra

/-- C4, witness for the amended claim at concrete ledgers, a failing first
call, and each mode. -/
theorem spec_C4_witness :
    (handleMergeOpt mgrAB "x" errBoom).result = ExportResult.alertError
      ("Error merging PDF: " ++ ("Failed on page " ++ toString (0 + 1) ++ ": " ++ "boom") ++
        "\n\nCheck console for details.") ∧
    (handleExtractOpt mgrAB "x" false errBoom).result = ExportResult.alertError
      ("Error extracting PDF: " ++ ("Failed on PDF " ++ toString (0 + 1) ++ ": " ++ "boom") ++
        "\n\nCheck console for details.") ∧
    (handleExtractOpt mgrA "x" false errBoom).result = ExportResult.alertError
      ("Error extracting PDF: " ++ "boom" ++ "\n\nCheck console for details.") ∧
    (handleExtractNaive mgrA "x" false errBoom).result =
      ExportResult.alertError "Error extracting PDF. Please try again." ∧
    (handleExtractNaive mgrAB "x" false errBoom).result =
      ExportResult.alertError "Error extracting PDF. Please try again." := by
  have hAB := spec_C4_amended mgrAB "x" errBoom 0 "boom" (fun j hj => by omega)
    (by decide) (by decide)
  have hA := spec_C4_amended mgrA "x" errBoom 0 "boom" (fun j hj => by omega)
    (by decide) (by decide)
  exact ⟨hAB.1, hAB.2.2.1 (by decide), hA.2.2.2.1 (by decide),
    hA.2.2.2.2.2.2.1 (by decide), hAB.2.2.2.2.2.2.2.1 (by decide)⟩

/-- C8: in per-page extract mode (both variants, all calls succeeding)
every delivered file for a chosen record is named
`{filename}_page-{P}.pdf` where P is `findIndex` of the record id within
`getAllPages()` plus one — and, when ids are unique, that index is exactly
the record's 0-based working position in the full ledger sequence, not its
index within the chosen subset; this holds for the single-chosen-page
download and for every ZIP entry. -/
theorem spec_C8 (m : PDFPageManager) (v : String)
    (hN : (m.pages.map (fun p => p.id)).Nodup) :
    (∀ p, pagesToProcess m = [p] →
      (handleExtractOpt m v false allOk).result = ExportResult.download (Payload.pdf
        (orDefault v "extracted-page" ++ "_page-" ++
          toString (jsFindIndexId m p + 1) ++ ".pdf") [copyRecord p]) ∧
      (handleExtractNaive m v false allOk).result = ExportResult.download (Payload.pdf
        (orDefault v "extracted-page" ++ "_page-" ++
          toString (jsFindIndexId m p + 1) ++ ".pdf") [copyRecord p])) ∧
    (1 < (pagesToProcess m).length →
      (handleExtractOpt m v false allOk).result = ExportResult.download (Payload.zip
        (orDefault v "extracted-pages" ++ "_extract.zip")
        ((pagesToProcess m).map (fun p => (orDefault v "extracted-pages" ++ "_page-" ++
          toString (jsFindIndexId m p + 1) ++ ".pdf", [copyRecord p])))) ∧
      (handleExtractNaive m v false allOk).result = ExportResult.download (Payload.zip
        (orDefault v "extracted-pages" ++ "_extract.zip")
        ((pagesToProcess m).map (fun p => (orDefault v "extracted-pages" ++ "_page-" ++
          toString (jsFindIndexId m p + 1) ++ ".pdf", [copyRecord p]))))) ∧
    (∀ p ∈ pagesToProcess m, ∃ k, k < m.pages.length ∧ m.pages[k]? = some p ∧
      jsFindIndexId m p = (k : Int)) := by
  refine ⟨?_, ?_, ?_⟩
  · intro p hp
    have hlen0 : ¬ (pagesToProcess m).length = 0 := by rw [hp]; simp
    have heq1 : (pagesToProcess m).length = 1 := by rw [hp]; rfl
    have hcp : (loadPhase [p]).contains p.fileIndex = true :=
      contains_loadPhase [p] p (by simp)
    constructor
    · simp only [handleExtractOpt, if_neg hlen0, Bool.false_eq_true, if_false, if_pos heq1,
        hp, hcp, if_true, allOk]
      simp
    · simp only [handleExtractNaive, if_neg hlen0, Bool.false_eq_true, if_false,
        if_pos heq1, hp, allOk]
      simp
  · intro hlt
    have hlen0 : ¬ (pagesToProcess m).length = 0 := by omega
    have hne1 : ¬ (pagesToProcess m).length = 1 := by omega
    have hcov : ∀ p ∈ pagesToProcess m,
        (loadPhase (pagesToProcess m)).contains p.fileIndex = true :=
      fun p hp => contains_loadPhase _ p hp
    have hz := optZipLoop_ok m (orDefault v "extracted-pages")
      (loadPhase (pagesToProcess m)) (pagesToProcess m) hcov 0
    have hzn := naiveZipLoop_ok m (orDefault v "extracted-pages") (pagesToProcess m) 0
    constructor
    · simp only [handleExtractOpt, if_neg hlen0, Bool.false_eq_true, if_false, if_neg hne1,
        hz]
    · simp only [handleExtractNaive, if_neg hlen0, Bool.false_eq_true, if_false,
        if_neg hne1, hzn]
  · intro p hp
    obtain ⟨k, hk, hget, hfind⟩ := findIdx_of_nodup_ids m.pages hN p (mem_pagesToProcess m p hp)
    refine ⟨k, hk, hget, ?_⟩
    unfold jsFindIndexId jsFindIndex getAllPages
    rw [hfind]

/-- C8, witness at concrete ledgers for both per-page cases. -/
theorem spec_C8_witness :
    (handleExtractOpt mgrABsel "x" false allOk).result = ExportResult.download (Payload.pdf
      (orDefault "x" "extracted-page" ++ "_page-" ++
        toString (jsFindIndexId mgrABsel recBsel + 1) ++ ".pdf") [copyRecord recBsel]) ∧
    (handleExtractOpt mgrAB "x" false allOk).result = ExportResult.download (Payload.zip
      (orDefault "x" "extracted-pages" ++ "_extract.zip")
      ((pagesToProcess mgrAB).map (fun p => (orDefault "x" "extracted-pages" ++ "_page-" ++
        toString (jsFindIndexId mgrAB p + 1) ++ ".pdf", [copyRecord p])))) := by
  have h1 := spec_C8 mgrABsel "x" (by decide)
  have h2 := spec_C8 mgrAB "x" (by decide)
  exact ⟨(h1.1 recBsel (by decide)).1, (h2.2.1 (by decide)).1⟩

/-- C5: every export handler operates on `getSelectedPages()` when it is
non-empty (a subsequence of the ledger, in sequence order) and on
`getAllPages()` otherwise; an empty ledger makes every handler alert and do
no export work; and a ledger whose selection equals the full sequence
produces the same result as the same ledger with nothing selected. -/
theorem spec_C5 (m m2 : PDFPageManager) (v : String) (b : Bool) :
    (getSelectedPages m ≠ [] → pagesToProcess m = getSelectedPages m) ∧
    (getSelectedPages m = [] → pagesToProcess m = getAllPages m) ∧
    (pagesToProcess m).Sublist m.pages ∧
    (m.pages = [] →
      (handleMergeOpt m v allOk).result = ExportResult.alertError "No pages to merge" ∧
      (handleMergeOpt m v allOk).trace = [] ∧
      (handleExtractOpt m v b allOk).result = ExportResult.alertError "No pages to extract" ∧
      (handleExtractOpt m v b allOk).trace = [] ∧
      (handleMergeNaive m v allOk).result = ExportResult.alertError "No pages to merge" ∧
      (handleExtractNaive m v b allOk).result =
        ExportResult.alertError "No pages to extract") ∧
    ((∀ p ∈ m.pages, p.selected = true) →
      m2.pages = m.pages.map (fun p => { p with selected := false }) →
      (handleMergeOpt m v allOk).result = (handleMergeOpt m2 v allOk).result ∧
      (handleExtractOpt m v b allOk).result = (handleExtractOpt m2 v b allOk).result ∧
      (handleMergeNaive m v allOk).result = (handleMergeNaive m2 v allOk).result ∧
      (handleExtractNaive m v b allOk).result =
        (handleExtractNaive m2 v b allOk).result) := by
  refine ⟨pagesToProcess_of_selected m, pagesToProcess_of_none_selected m,
    pagesToProcess_sublist m, ?_, ?_⟩
  · intro hpages
    refine ⟨?_, ?_, ?_, ?_, ?_, ?_⟩ <;>
      simp [handleMergeOpt, handleExtractOpt, handleMergeNaive, handleExtractNaive,
        pagesToProcess, getSelectedPages, getAllPages, hpages]
  · intro hsel hmap
    have hfs : getSelectedPages m = m.pages :=
      List.filter_eq_self.mpr (fun a ha => hsel a ha)
    have hPm : pagesToProcess m = m.pages := by
      by_cases hnil : m.pages = []
      · rw [pagesToProcess_of_none_selected m (hfs.trans hnil)]
        rfl
      · rw [pagesToProcess_of_selected m (by rw [hfs]; exact hnil), hfs]
    have hsel2 : getSelectedPages m2 = [] := by
      refine List.filter_eq_nil_iff.mpr ?_
      intro a ha
      rw [hmap, List.mem_map] at ha
      obtain ⟨q, _, rfl⟩ := ha
      simp
    have hPm2 : pagesToProcess m2 = m.pages.map (fun p => { p with selected := false }) := by
      rw [pagesToProcess_of_none_selected m2 hsel2]
      exact hmap
    refine ⟨?_, ?_, ?_, ?_⟩
    · simp only [handleMergeOpt, hPm, hPm2, List.length_map, loadPhase_map_sel,
        optCopyLoop_map_sel]
    · simp only [handleExtractOpt, hPm, hPm2, List.length_map, loadPhase_map_sel,
        optCopyLoop_map_sel,
        optZipLoop_map_sel m m2 (orDefault v "extracted-pages")
          (loadPhase m.pages) allOk false hmap]
      rcases hcase : m.pages with _ | ⟨p0, ps⟩
      · rfl
      · simp only [List.map_cons, copyRecord_set_sel,
          jsFindIndexId_map_sel m m2 p0 false hmap]
    · simp only [handleMergeNaive, hPm, hPm2, List.length_map, naiveMergeLoop_map_sel]
    · simp only [handleExtractNaive, hPm, hPm2, List.length_map, naiveMergeLoop_map_sel,
        naiveZipLoop_map_sel m m2 (orDefault v "extracted-pages") allOk false hmap]
      rcases hcase : m.pages with _ | ⟨p0, ps⟩
      · rfl
      · simp only [List.map_cons, copyRecord_set_sel,
          jsFindIndexId_map_sel m m2 p0 false hmap]

/-- C5, witness at concrete ledgers for each selection situation. -/
theorem spec_C5_witness :
    pagesToProcess mgrABsel = getSelectedPages mgrABsel ∧
    pagesToProcess mgrAB = getAllPages mgrAB ∧
    (handleMergeOpt initManager "x" allOk).result =
      ExportResult.alertError "No pages to merge" ∧
    (handleMergeOpt mgrABall "x" allOk).result = (handleMergeOpt mgrAB "x" allOk).result := by
  have h1 := spec_C5 mgrABsel mgrABsel "x" false
  have h2 := spec_C5 mgrAB mgrAB "x" false
  have h3 := spec_C5 initManager initManager "x" false
  have h4 := spec_C5 mgrABall mgrAB "x" false
  exact ⟨h1.1 (by decide), h2.2.1 (by decide), (h3.2.2.2.1 (by decide)).1,
    (h4.2.2.2.2 (by decide) (by decide)).1⟩

end PdfManager
